import Mathlib

/-!
Verification of `scripts/generate_binaural_beats.py`.

The script synthesizes short audio loops with numpy and writes them as
16-bit WAV files.  We embed its computational core shallowly:

* sample counts, the time grid (`np.linspace`, endpoint included) and the
  fade ramps are exact rational arithmetic, kept computable;
* waveform sample values use `Real.sin`, mirroring the closed-form
  trigonometric expressions of the source;
* quantization (`np.int16(audio * 32767)`) is truncation toward zero
  followed by wrap-around into the signed 16-bit range.

Parameters (frequency, duration, sample rate, amplitude) are rationals;
the driver only ever passes integer or decimal literals.
-/

open Real

/-- Truncation toward zero of a rational, as Python's `int(...)` does. -/
def ratTrunc (q : ℚ) : ℤ := if q < 0 then -⌊-q⌋ else ⌊q⌋

/-- Number of samples: `int(sample_rate * duration)` (source line 33 / 61). -/
def numSamples (r d : ℚ) : ℕ := (ratTrunc (r * d)).toNat

/-- Fade length in samples: `int(sample_rate * 0.5)` (source line 42 / 69). -/
def fadeSamples (r : ℚ) : ℕ := (ratTrunc (r * (1 / 2))).toNat

/-- `np.linspace(a, b, n)[i]`: `n` evenly spaced values from `a` to `b`,
endpoint included; for `n = 1` numpy returns `[a]`. -/
def linspaceVal (a b : ℚ) (n : ℕ) (i : ℕ) : ℚ :=
  if n ≤ 1 then a else a + (b - a) * i / ((n : ℚ) - 1)

/-- Time-grid point `t[i] = np.linspace(0, duration, numSamples)[i]`. -/
def gridPoint (r d : ℚ) (i : ℕ) : ℚ := linspaceVal 0 d (numSamples r d) i

/-- Fade-in ramp value `np.linspace(0, 1, fade_samples)[i]`. -/
def fadeInVal (fs i : ℕ) : ℚ := linspaceVal 0 1 fs i

/-- Fade-out ramp value `np.linspace(1, 0, fade_samples)[i]`. -/
def fadeOutVal (fs i : ℕ) : ℚ := linspaceVal 1 0 fs i

/-- Combined multiplier applied to sample `i` of an `n`-sample channel by
`x[:fade_samples] *= fade_in` and `x[-fade_samples:] *= fade_out`
(both multiplications apply where the two windows overlap). -/
def fadeFactor (n fs i : ℕ) : ℚ :=
  (if i < fs then fadeInVal fs i else 1) *
    (if n - fs ≤ i then fadeOutVal fs (i - (n - fs)) else 1)

/-- One channel sample of `generate_binaural_beat` before fading:
`amplitude * np.sin(2 * np.pi * freq * t)` (source lines 36 and 39). -/
noncomputable def sineWave (freq a t : ℚ) : ℝ :=
  (a : ℝ) * Real.sin (2 * π * (freq : ℝ) * (t : ℝ))

/-- The pure tone before fading (source lines 64-66): fundamental plus
second and third harmonics, weighted 0.7 / 0.2 / 0.1. -/
noncomputable def pureToneRaw (f a t : ℚ) : ℝ :=
  (a : ℝ) * 0.7 * Real.sin (2 * π * (f : ℝ) * (t : ℝ)) +
    (a : ℝ) * 0.2 * Real.sin (2 * π * (f : ℝ) * 2 * (t : ℝ)) +
    (a : ℝ) * 0.1 * Real.sin (2 * π * (f : ℝ) * 3 * (t : ℝ))

/-- Sample `i` of the (faded) pure tone channel of `generate_pure_tone`. -/
noncomputable def pureToneSample (f d r a : ℚ) (i : ℕ) : ℝ :=
  (fadeFactor (numSamples r d) (fadeSamples r) i : ℝ) *
    pureToneRaw f a (gridPoint r d i)

/-- Sample `i` of one (faded) channel of `generate_binaural_beat` at
carrier frequency `freq`. -/
noncomputable def binauralSample (freq d r a : ℚ) (i : ℕ) : ℝ :=
  (fadeFactor (numSamples r d) (fadeSamples r) i : ℝ) *
    sineWave freq a (gridPoint r d i)

/-- The stereo buffer returned by `generate_pure_tone`: the faded tone
duplicated onto both channels (`np.column_stack((tone, tone))`). -/
noncomputable def pureToneStereo (f d r a : ℚ) : List (ℝ × ℝ) :=
  (List.range (numSamples r d)).map
    (fun i => (pureToneSample f d r a i, pureToneSample f d r a i))

/-- The stereo buffer returned by `generate_binaural_beat`: left channel at
`base_freq`, right channel at `base_freq + beat_freq`
(`np.column_stack((left, right))`). -/
noncomputable def binauralStereo (b q d r a : ℚ) : List (ℝ × ℝ) :=
  (List.range (numSamples r d)).map
    (fun i => (binauralSample b d r a i, binauralSample (b + q) d r a i))

/-- Wrap an integer into the signed 16-bit range, as numpy's conversion to
`int16` does for out-of-range values. -/
def wrap16 (z : ℤ) : ℤ := (z + 32768) % 65536 - 32768

/-- Truncation toward zero of a real number (float-to-int conversion). -/
noncomputable def realTrunc (x : ℝ) : ℤ := if x < 0 then -⌊-x⌋ else ⌊x⌋

/-- `save_wav`'s per-sample quantization: `np.int16(sample * 32767)`
(source line 84). -/
noncomputable def quantize (x : ℝ) : ℤ := wrap16 (realTrunc (x * 32767))

/-- Quantization of a whole stereo buffer, as `save_wav` applies it. -/
noncomputable def quantizeStereo (l : List (ℝ × ℝ)) : List (ℤ × ℤ) :=
  l.map (fun p => (quantize p.1, quantize p.2))

/-- The script's literal constants (source lines 12-14). -/
def SAMPLE_RATE : ℚ := 44100

def DURATION : ℚ := 30

def AMPLITUDE : ℚ := 3 / 10

/-- The six files `main` writes, in order, paired with their quantized
sample data (source lines 97-125).  The `run` argument models distinct
invocations of the driver; nothing in the script depends on it. -/
noncomputable def driverOutputs (_run : ℕ) : List (String × List (ℤ × ℤ)) :=
  [("432hz-healing.wav", quantizeStereo (pureToneStereo 432 DURATION SAMPLE_RATE AMPLITUDE)),
   ("528hz-love.wav", quantizeStereo (pureToneStereo 528 DURATION SAMPLE_RATE AMPLITUDE)),
   ("theta-waves.wav", quantizeStereo (binauralStereo 200 6 DURATION SAMPLE_RATE AMPLITUDE)),
   ("alpha-waves.wav", quantizeStereo (binauralStereo 200 10 DURATION SAMPLE_RATE AMPLITUDE)),
   ("delta-waves.wav", quantizeStereo (binauralStereo 150 2 DURATION SAMPLE_RATE AMPLITUDE)),
   ("beta-waves.wav", quantizeStereo (binauralStereo 250 18 DURATION SAMPLE_RATE AMPLITUDE))]

/-! ### Helper lemmas -/

lemma ratTrunc_of_nonneg {q : ℚ} (h : 0 ≤ q) : ratTrunc q = ⌊q⌋ := by
  simp [ratTrunc, not_lt.mpr h]

lemma ratTrunc_mono_of_nonneg {p q : ℚ} (hp : 0 ≤ p) (h : p ≤ q) :
    ratTrunc p ≤ ratTrunc q := by
  rw [ratTrunc_of_nonneg hp, ratTrunc_of_nonneg (hp.trans h)]
  exact Int.floor_mono h

lemma fadeSamples_le_numSamples {r d : ℚ} (hr : 0 ≤ r) (hd : 1 ≤ d) :
    fadeSamples r ≤ numSamples r d := by
  unfold fadeSamples numSamples
  apply Int.toNat_le_toNat
  apply ratTrunc_mono_of_nonneg (by positivity)
  calc r * (1 / 2) ≤ r * d := by nlinarith
    _ = r * d := rfl

lemma two_le_fadeSamples {r : ℚ} (hr : 4 ≤ r) : 2 ≤ fadeSamples r := by
  unfold fadeSamples
  have h2 : (2 : ℚ) ≤ r * (1 / 2) := by linarith
  have hnn : (0 : ℚ) ≤ r * (1 / 2) := by linarith
  rw [ratTrunc_of_nonneg hnn]
  have hf : (2 : ℤ) ≤ ⌊r * (1 / 2)⌋ := by
    have := Int.floor_mono h2
    simpa using this
  have := Int.toNat_le_toNat hf
  simpa using this

lemma fadeInVal_bounds {fs i : ℕ} (h : i < fs) :
    0 ≤ fadeInVal fs i ∧ fadeInVal fs i ≤ 1 := by
  unfold fadeInVal linspaceVal
  by_cases hfs : fs ≤ 1
  · simp [hfs]
  · rw [if_neg hfs]
    have h2 : 2 ≤ fs := by omega
    have hpos : (0 : ℚ) < (fs : ℚ) - 1 := by
      have : (2 : ℚ) ≤ (fs : ℚ) := by exact_mod_cast h2
      linarith
    have hval : (0 : ℚ) + (1 - 0) * (i : ℚ) / ((fs : ℚ) - 1) = (i : ℚ) / ((fs : ℚ) - 1) := by
      ring
    rw [hval]
    constructor
    · exact div_nonneg (by positivity) hpos.le
    · rw [div_le_one hpos]
      have : (i : ℚ) + 1 ≤ (fs : ℚ) := by exact_mod_cast h
      linarith

lemma fadeOutVal_bounds {fs j : ℕ} (h : j < fs) :
    0 ≤ fadeOutVal fs j ∧ fadeOutVal fs j ≤ 1 := by
  unfold fadeOutVal linspaceVal
  by_cases hfs : fs ≤ 1
  · simp [hfs]
  · rw [if_neg hfs]
    have h2 : 2 ≤ fs := by omega
    have hpos : (0 : ℚ) < (fs : ℚ) - 1 := by
      have : (2 : ℚ) ≤ (fs : ℚ) := by exact_mod_cast h2
      linarith
    have hval : (1 : ℚ) + (0 - 1) * (j : ℚ) / ((fs : ℚ) - 1) = 1 - (j : ℚ) / ((fs : ℚ) - 1) := by
      ring
    rw [hval]
    have hj : (j : ℚ) ≤ (fs : ℚ) - 1 := by
      have : (j : ℚ) + 1 ≤ (fs : ℚ) := by exact_mod_cast h
      linarith
    constructor
    · have : (j : ℚ) / ((fs : ℚ) - 1) ≤ 1 := by rw [div_le_one hpos]; linarith
      linarith
    · have : (0 : ℚ) ≤ (j : ℚ) / ((fs : ℚ) - 1) := div_nonneg (by positivity) hpos.le
      linarith

lemma fadeFactor_bounds {n fs i : ℕ} (hfn : fs ≤ n) (hi : i < n) :
    0 ≤ fadeFactor n fs i ∧ fadeFactor n fs i ≤ 1 := by
  unfold fadeFactor
  have hIn : 0 ≤ (if i < fs then fadeInVal fs i else 1) ∧
      (if i < fs then fadeInVal fs i else 1) ≤ 1 := by
    split
    · exact fadeInVal_bounds (by assumption)
    · exact ⟨zero_le_one, le_refl 1⟩
  have hOut : 0 ≤ (if n - fs ≤ i then fadeOutVal fs (i - (n - fs)) else 1) ∧
      (if n - fs ≤ i then fadeOutVal fs (i - (n - fs)) else 1) ≤ 1 := by
    split
    · exact fadeOutVal_bounds (by omega)
    · exact ⟨zero_le_one, le_refl 1⟩
  exact ⟨mul_nonneg hIn.1 hOut.1, mul_le_one₀ hIn.2 hOut.1 hOut.2⟩

lemma abs_sin_le_one' (x : ℝ) : |Real.sin x| ≤ 1 :=
  abs_le.mpr ⟨Real.neg_one_le_sin x, Real.sin_le_one x⟩

lemma abs_sineWave_le {freq a : ℚ} (t : ℚ) (ha : 0 ≤ a) :
    |sineWave freq a t| ≤ (a : ℝ) := by
  unfold sineWave
  have ha' : (0 : ℝ) ≤ (a : ℝ) := by exact_mod_cast ha
  rw [abs_mul, abs_of_nonneg ha']
  calc (a : ℝ) * |Real.sin (2 * π * (freq : ℝ) * (t : ℝ))| ≤ (a : ℝ) * 1 :=
        mul_le_mul_of_nonneg_left (abs_sin_le_one' _) ha'
    _ = (a : ℝ) := mul_one _

lemma abs_pureToneRaw_le {f a : ℚ} (t : ℚ) (ha : 0 ≤ a) :
    |pureToneRaw f a t| ≤ (a : ℝ) := by
  unfold pureToneRaw
  have ha' : (0 : ℝ) ≤ (a : ℝ) := by exact_mod_cast ha
  have s1 := abs_le.mp (abs_sin_le_one' (2 * π * (f : ℝ) * (t : ℝ)))
  have s2 := abs_le.mp (abs_sin_le_one' (2 * π * (f : ℝ) * 2 * (t : ℝ)))
  have s3 := abs_le.mp (abs_sin_le_one' (2 * π * (f : ℝ) * 3 * (t : ℝ)))
  rw [abs_le]
  constructor <;> nlinarith [s1.1, s1.2, s2.1, s2.2, s3.1, s3.2]

lemma abs_fadeFactor_real_le {n fs i : ℕ} (hfn : fs ≤ n) (hi : i < n) :
    |((fadeFactor n fs i : ℚ) : ℝ)| ≤ 1 := by
  have hb := fadeFactor_bounds hfn hi
  rw [abs_of_nonneg (by exact_mod_cast hb.1)]
  exact_mod_cast hb.2

lemma abs_pureToneSample_le {f d r a : ℚ} (i : ℕ) (ha : 0 ≤ a) (hr : 0 ≤ r)
    (hd : 1 ≤ d) (hi : i < numSamples r d) :
    |pureToneSample f d r a i| ≤ (a : ℝ) := by
  unfold pureToneSample
  rw [abs_mul]
  have h1 := abs_fadeFactor_real_le (fadeSamples_le_numSamples hr hd) hi
  have h2 := @abs_pureToneRaw_le f a (gridPoint r d i) ha
  calc |((fadeFactor (numSamples r d) (fadeSamples r) i : ℚ) : ℝ)| *
        |pureToneRaw f a (gridPoint r d i)| ≤ 1 * (a : ℝ) :=
        mul_le_mul h1 h2 (abs_nonneg _) zero_le_one
    _ = (a : ℝ) := one_mul _

lemma abs_binauralSample_le {f d r a : ℚ} (i : ℕ) (ha : 0 ≤ a) (hr : 0 ≤ r)
    (hd : 1 ≤ d) (hi : i < numSamples r d) :
    |binauralSample f d r a i| ≤ (a : ℝ) := by
  unfold binauralSample
  rw [abs_mul]
  have h1 := abs_fadeFactor_real_le (fadeSamples_le_numSamples hr hd) hi
  have h2 := @abs_sineWave_le f a (gridPoint r d i) ha
  calc |((fadeFactor (numSamples r d) (fadeSamples r) i : ℚ) : ℝ)| *
        |sineWave f a (gridPoint r d i)| ≤ 1 * (a : ℝ) :=
        mul_le_mul h1 h2 (abs_nonneg _) zero_le_one
    _ = (a : ℝ) := one_mul _

lemma numSamples_two_one : numSamples 2 1 = 2 := by
  norm_num [numSamples, ratTrunc]
  rfl

/-! ### Claim theorems -/

/-- Claim C1: every pre-fade sample of `generate_pure_tone` at grid time `t`
equals `a*0.7*sin(2π f t) + a*0.2*sin(2π (2f) t) + a*0.1*sin(2π (3f) t)`:
the fundamental at 70% weight, the second harmonic at 20% and the third
harmonic at 10%. -/
theorem pure_tone_prefade_harmonic_sum (f d r a : ℚ) (i : ℕ)
    (_hi : i < numSamples r d) :
    pureToneRaw f a (gridPoint r d i) =
      (a : ℝ) * 0.7 * Real.sin (2 * π * (f : ℝ) * ((gridPoint r d i : ℚ) : ℝ)) +
        (a : ℝ) * 0.2 * Real.sin (2 * π * (2 * (f : ℝ)) * ((gridPoint r d i : ℚ) : ℝ)) +
        (a : ℝ) * 0.1 * Real.sin (2 * π * (3 * (f : ℝ)) * ((gridPoint r d i : ℚ) : ℝ)) := by
  unfold pureToneRaw
  have e2 : 2 * π * (f : ℝ) * 2 * ((gridPoint r d i : ℚ) : ℝ) =
      2 * π * (2 * (f : ℝ)) * ((gridPoint r d i : ℚ) : ℝ) := by ring
  have e3 : 2 * π * (f : ℝ) * 3 * ((gridPoint r d i : ℚ) : ℝ) =
      2 * π * (3 * (f : ℝ)) * ((gridPoint r d i : ℚ) : ℝ) := by ring
  rw [e2, e3]

theorem pure_tone_prefade_harmonic_sum_witness :
    0 < numSamples 2 1 ∧
      pureToneRaw 1 1 (gridPoint 2 1 0) =
        ((1 : ℚ) : ℝ) * 0.7 * Real.sin (2 * π * ((1 : ℚ) : ℝ) * ((gridPoint 2 1 0 : ℚ) : ℝ)) +
          ((1 : ℚ) : ℝ) * 0.2 *
            Real.sin (2 * π * (2 * ((1 : ℚ) : ℝ)) * ((gridPoint 2 1 0 : ℚ) : ℝ)) +
          ((1 : ℚ) : ℝ) * 0.1 *
            Real.sin (2 * π * (3 * ((1 : ℚ) : ℝ)) * ((gridPoint 2 1 0 : ℚ) : ℝ)) :=
  ⟨by rw [numSamples_two_one]; decide,
    pure_tone_prefade_harmonic_sum 1 1 2 1 0 (by rw [numSamples_two_one]; decide)⟩

/-- Claim C4: `save_wav` quantizes by scaling by exactly 32767 and truncating
to signed 16-bit: an input sample of +1.0 maps to 32767 and an input sample
of -1.0 maps to -32767 (not -32768). -/
theorem save_wav_unit_quantization :
    quantize 1 = 32767 ∧ quantize (-1) = -32767 := by
  constructor
  · unfold quantize realTrunc wrap16
    rw [one_mul, if_neg (by norm_num : ¬ (32767 : ℝ) < 0)]
    norm_num
  · unfold quantize realTrunc wrap16
    rw [neg_one_mul, if_pos (by norm_num : (-32767 : ℝ) < 0)]
    norm_num

/-- Claim C5: both generators produce exactly `trunc(duration * sample_rate)`
samples per channel; with the driver's fixed duration 30 s and rate 44100 Hz
that is 1,323,000 frames. -/
theorem generated_buffer_lengths (f b q d r a : ℚ) :
    (pureToneStereo f d r a).length = numSamples r d ∧
      (binauralStereo b q d r a).length = numSamples r d ∧
      numSamples SAMPLE_RATE DURATION = 1323000 := by
  refine ⟨?_, ?_, ?_⟩
  · simp [pureToneStereo]
  · simp [binauralStereo]
  · show numSamples 44100 30 = 1323000
    norm_num [numSamples, ratTrunc]
    rfl

/-- Claim C8: the pipeline is deterministic — two runs of the driver produce
identical quantized sample data for every one of the six outputs; no
computation depends on the run. -/
theorem driver_runs_identical (m k : ℕ) : driverOutputs m = driverOutputs k := rfl

/-- Claim C9: one driver run produces exactly six outputs, named and ordered
as listed, the first two from `generate_pure_tone` (432 Hz, 528 Hz) and the
remaining four from `generate_binaural_beat` with (carrier, beat) pairs
(200,6), (200,10), (150,2), (250,18). -/
theorem driver_file_table (m : ℕ) :
    driverOutputs m =
      [("432hz-healing.wav", quantizeStereo (pureToneStereo 432 30 44100 (3 / 10))),
       ("528hz-love.wav", quantizeStereo (pureToneStereo 528 30 44100 (3 / 10))),
       ("theta-waves.wav", quantizeStereo (binauralStereo 200 6 30 44100 (3 / 10))),
       ("alpha-waves.wav", quantizeStereo (binauralStereo 200 10 30 44100 (3 / 10))),
       ("delta-waves.wav", quantizeStereo (binauralStereo 150 2 30 44100 (3 / 10))),
       ("beta-waves.wav", quantizeStereo (binauralStereo 250 18 30 44100 (3 / 10)))] ∧
      (driverOutputs m).length = 6 :=
  ⟨rfl, rfl⟩

lemma gridPoint_zero (r d : ℚ) : gridPoint r d 0 = 0 := by
  unfold gridPoint linspaceVal
  split <;> simp

lemma gridPoint_eq {r d : ℚ} (h : 1 < numSamples r d) (i : ℕ) :
    gridPoint r d i = d * i / ((numSamples r d : ℚ) - 1) := by
  unfold gridPoint linspaceVal
  rw [if_neg (by omega)]
  ring

lemma fadeSamples_two : fadeSamples 2 = 1 := by
  norm_num [fadeSamples, ratTrunc]

lemma pureToneRaw_at_zero (f a : ℚ) : pureToneRaw f a 0 = 0 := by
  unfold pureToneRaw
  simp

lemma sineWave_at_zero (f a : ℚ) : sineWave f a 0 = 0 := by
  unfold sineWave
  simp

lemma fadeOutVal_last {fs : ℕ} (h : 2 ≤ fs) : fadeOutVal fs (fs - 1) = 0 := by
  unfold fadeOutVal linspaceVal
  rw [if_neg (by omega), Nat.cast_sub (by omega : 1 ≤ fs), Nat.cast_one]
  have h2 : (2 : ℚ) ≤ (fs : ℚ) := by exact_mod_cast h
  have hne : ((fs : ℚ) - 1) ≠ 0 := by
    intro hc
    rw [sub_eq_zero] at hc
    rw [hc] at h2
    linarith
  field_simp

lemma fadeFactor_last {n fs : ℕ} (h2 : 2 ≤ fs) (hfn : fs ≤ n) :
    fadeFactor n fs (n - 1) = 0 := by
  unfold fadeFactor
  rw [if_pos (by omega : n - fs ≤ n - 1)]
  have hj : n - 1 - (n - fs) = fs - 1 := by omega
  rw [hj, fadeOutVal_last h2, mul_zero]

lemma realTrunc_abs_le {x : ℝ} (h : |x| ≤ 1) :
    -32767 ≤ realTrunc (x * 32767) ∧ realTrunc (x * 32767) ≤ 32767 := by
  obtain ⟨hl, hu⟩ := abs_le.mp h
  have hub : x * 32767 ≤ 32767 := by nlinarith
  have hlb : -(32767 : ℝ) ≤ x * 32767 := by nlinarith
  have h327 : ⌊(32767 : ℝ)⌋ = 32767 := by norm_num
  unfold realTrunc
  by_cases hneg : x * 32767 < 0
  · rw [if_pos hneg]
    have hfl : ⌊-(x * 32767)⌋ ≤ ⌊(32767 : ℝ)⌋ := Int.floor_mono (by linarith)
    rw [h327] at hfl
    have hge : 0 ≤ ⌊-(x * 32767)⌋ := Int.floor_nonneg.mpr (by linarith)
    omega
  · rw [if_neg hneg]
    push_neg at hneg
    have hfl : ⌊x * 32767⌋ ≤ ⌊(32767 : ℝ)⌋ := Int.floor_mono hub
    rw [h327] at hfl
    have hge : 0 ≤ ⌊x * 32767⌋ := Int.floor_nonneg.mpr hneg
    omega

lemma wrap16_eq_self {z : ℤ} (h1 : -32767 ≤ z) (h2 : z ≤ 32767) : wrap16 z = z := by
  unfold wrap16
  rw [Int.emod_eq_of_lt (by linarith) (by linarith)]
  ring

lemma binauralSample_quarter : binauralSample (1 / 4) 1 2 1 1 = 1 := by
  unfold binauralSample
  have hff : fadeFactor (numSamples 2 1) (fadeSamples 2) 1 = 1 := by
    rw [numSamples_two_one, fadeSamples_two]
    norm_num [fadeFactor, fadeInVal, fadeOutVal, linspaceVal]
  have hgp : gridPoint 2 1 1 = 1 := by
    unfold gridPoint linspaceVal
    rw [numSamples_two_one]
    norm_num
  rw [hff, hgp]
  unfold sineWave
  have harg : 2 * π * ((1 / 4 : ℚ) : ℝ) * ((1 : ℚ) : ℝ) = π / 2 := by
    push_cast
    ring
  rw [harg, Real.sin_pi_div_two]
  norm_num

/-- Claim C2: at every index `i` of the stereo buffer of
`generate_binaural_beat`, the left channel is `a*sin(2π b t_i)` and the right
channel is `a*sin(2π (b+q) t_i)`, each multiplied by the same 0.5-second
linear fade factor, applied independently to the two channels. -/
theorem binaural_stereo_channels (b q d r a : ℚ) (i : ℕ)
    (hi : i < numSamples r d) :
    (binauralStereo b q d r a)[i]? =
      some (((fadeFactor (numSamples r d) (fadeSamples r) i : ℚ) : ℝ) *
              ((a : ℝ) * Real.sin (2 * π * (b : ℝ) * ((gridPoint r d i : ℚ) : ℝ))),
            ((fadeFactor (numSamples r d) (fadeSamples r) i : ℚ) : ℝ) *
              ((a : ℝ) * Real.sin (2 * π * ((b : ℝ) + (q : ℝ)) * ((gridPoint r d i : ℚ) : ℝ)))) := by
  have hcast : ((b + q : ℚ) : ℝ) = (b : ℝ) + (q : ℝ) := by push_cast; ring
  simp [binauralStereo, List.getElem?_map, List.getElem?_range, hi,
    binauralSample, sineWave, hcast]

theorem binaural_stereo_channels_witness :
    0 < numSamples 2 1 ∧
      (binauralStereo 1 1 1 2 1)[0]? =
        some (((fadeFactor (numSamples 2 1) (fadeSamples 2) 0 : ℚ) : ℝ) *
                (((1 : ℚ) : ℝ) *
                  Real.sin (2 * π * ((1 : ℚ) : ℝ) * ((gridPoint 2 1 0 : ℚ) : ℝ))),
              ((fadeFactor (numSamples 2 1) (fadeSamples 2) 0 : ℚ) : ℝ) *
                (((1 : ℚ) : ℝ) *
                  Real.sin (2 * π * (((1 : ℚ) : ℝ) + ((1 : ℚ) : ℝ)) *
                    ((gridPoint 2 1 0 : ℚ) : ℝ)))) :=
  ⟨by rw [numSamples_two_one]; decide,
    binaural_stereo_channels 1 1 1 2 1 0 (by rw [numSamples_two_one]; decide)⟩

/-- Claim C3 (counterexample): with sample rate 2 and duration 1 the grid is
`[0, 1]`: it has `trunc(r*d) = 2` points, but the endpoint `d = 1` IS a
sample time and the consecutive spacing is `1`, not `1/r = 1/2`. -/
theorem timegrid_halfopen_counterexample :
    numSamples 2 1 = 2 ∧ gridPoint 2 1 0 = 0 ∧ gridPoint 2 1 1 = 1 ∧
      gridPoint 2 1 1 - gridPoint 2 1 0 ≠ 1 / 2 := by
  have h0 : gridPoint 2 1 0 = 0 := gridPoint_zero 2 1
  have h1 : gridPoint 2 1 1 = 1 := by
    unfold gridPoint linspaceVal
    rw [numSamples_two_one]
    norm_num
  refine ⟨numSamples_two_one, h0, h1, ?_⟩
  rw [h0, h1]
  norm_num

/-- Claim C3 (amended): the time grid of both generators consists of
`N = trunc(r*d)` uniformly spaced points spanning the CLOSED interval
`[0, d]`: the first point is 0, the last point is exactly `d`, and
consecutive points differ by `d/(N-1)`. -/
theorem timegrid_uniform_closed (r d : ℚ) (i : ℕ) (h2 : 2 ≤ numSamples r d)
    (_hi : i + 1 < numSamples r d) :
    gridPoint r d 0 = 0 ∧
      gridPoint r d (numSamples r d - 1) = d ∧
      gridPoint r d (i + 1) - gridPoint r d i =
        d / ((numSamples r d : ℚ) - 1) := by
  have h1 : 1 < numSamples r d := by omega
  have hc2 : (2 : ℚ) ≤ (numSamples r d : ℚ) := by exact_mod_cast h2
  have hne : ((numSamples r d : ℚ) - 1) ≠ 0 := by
    intro hc
    rw [sub_eq_zero] at hc
    rw [hc] at hc2
    linarith
  refine ⟨gridPoint_zero r d, ?_, ?_⟩
  · rw [gridPoint_eq h1, Nat.cast_sub (by omega : 1 ≤ numSamples r d), Nat.cast_one]
    field_simp
  · rw [gridPoint_eq h1, gridPoint_eq h1]
    push_cast
    field_simp
    ring

theorem timegrid_uniform_closed_witness :
    (2 ≤ numSamples 2 1 ∧ 0 + 1 < numSamples 2 1) ∧
      (gridPoint 2 1 0 = 0 ∧
        gridPoint 2 1 (numSamples 2 1 - 1) = 1 ∧
        gridPoint 2 1 (0 + 1) - gridPoint 2 1 0 =
          1 / ((numSamples 2 1 : ℚ) - 1)) :=
  ⟨⟨by rw [numSamples_two_one], by rw [numSamples_two_one]; decide⟩,
    timegrid_uniform_closed 2 1 0 (by rw [numSamples_two_one])
      (by rw [numSamples_two_one]; decide)⟩

/-- Claim C6: for amplitude `0 ≤ a ≤ 1` (and the spec's precondition
duration ≥ 1 s for valid input), every sample of the pure tone buffer and of
both binaural channels lies within the closed interval `[-a, a]`. -/
theorem samples_within_amplitude (f b q d r a : ℚ) (i : ℕ)
    (ha0 : 0 ≤ a) (_ha1 : a ≤ 1) (hr : 0 ≤ r) (hd : 1 ≤ d)
    (hi : i < numSamples r d) :
    |pureToneSample f d r a i| ≤ (a : ℝ) ∧
      |binauralSample b d r a i| ≤ (a : ℝ) ∧
      |binauralSample (b + q) d r a i| ≤ (a : ℝ) :=
  ⟨abs_pureToneSample_le i ha0 hr hd hi,
    abs_binauralSample_le i ha0 hr hd hi,
    abs_binauralSample_le i ha0 hr hd hi⟩

theorem samples_within_amplitude_witness :
    ((0 : ℚ) ≤ 1 ∧ (1 : ℚ) ≤ 1 ∧ (0 : ℚ) ≤ 2 ∧ (1 : ℚ) ≤ 1 ∧ 0 < numSamples 2 1) ∧
      (|pureToneSample 1 1 2 1 0| ≤ ((1 : ℚ) : ℝ) ∧
        |binauralSample 1 1 2 1 0| ≤ ((1 : ℚ) : ℝ) ∧
        |binauralSample (1 + 1) 1 2 1 0| ≤ ((1 : ℚ) : ℝ)) :=
  ⟨⟨by norm_num, by norm_num, by norm_num, by norm_num,
      by rw [numSamples_two_one]; decide⟩,
    samples_within_amplitude 1 1 1 1 2 1 0 (by norm_num) (by norm_num)
      (by norm_num) (by norm_num) (by rw [numSamples_two_one]; decide)⟩

/-- Claim C7 (counterexample): with duration exactly 1 s (meeting the
claim's precondition) and sample rate 2, the fade window is a single sample
and numpy's `linspace(1, 0, 1)` is `[1.0]`, so the fade-out multiplier on
the final sample is 1, not 0: the last frame of
`generate_binaural_beat(1/4, 0, 1, 2, 1)` is `(sin(π/2), sin(π/2)) = (1, 1)`. -/
theorem fade_endpoint_counterexample :
    (1 : ℚ) ≤ 1 ∧ (binauralStereo (1 / 4) 0 1 2 1)[1]? = some (1, 1) := by
  refine ⟨le_refl 1, ?_⟩
  have hmap : (binauralStereo (1 / 4) 0 1 2 1)[1]? =
      some (binauralSample (1 / 4) 1 2 1 1, binauralSample (1 / 4 + 0) 1 2 1 1) := by
    unfold binauralStereo
    rw [numSamples_two_one]
    simp [List.getElem?_map, List.getElem?_range]
  rw [hmap]
  have hq : (1 / 4 + 0 : ℚ) = 1 / 4 := by norm_num
  rw [hq, binauralSample_quarter]

/-- Claim C7 (amended): for every call with duration ≥ 1 s and sample rate
≥ 4 (so that the fade window `int(0.5 * sample_rate)` holds at least two
samples), the first and last sample of the pure tone channel and of each
binaural channel are exactly 0. -/
theorem fade_endpoints_zero (f d r a : ℚ) (hd : 1 ≤ d) (hr : 4 ≤ r) :
    pureToneSample f d r a 0 = 0 ∧
      pureToneSample f d r a (numSamples r d - 1) = 0 ∧
      binauralSample f d r a 0 = 0 ∧
      binauralSample f d r a (numSamples r d - 1) = 0 := by
  have hr0 : (0 : ℚ) ≤ r := by linarith
  have hfs2 := two_le_fadeSamples hr
  have hfn := fadeSamples_le_numSamples hr0 hd
  have hlast := fadeFactor_last hfs2 hfn
  refine ⟨?_, ?_, ?_, ?_⟩
  · unfold pureToneSample
    rw [gridPoint_zero, pureToneRaw_at_zero, mul_zero]
  · unfold pureToneSample
    rw [hlast]
    simp
  · unfold binauralSample
    rw [gridPoint_zero, sineWave_at_zero, mul_zero]
  · unfold binauralSample
    rw [hlast]
    simp

theorem fade_endpoints_zero_witness :
    ((1 : ℚ) ≤ 1 ∧ (4 : ℚ) ≤ 4) ∧
      (pureToneSample 1 1 4 1 0 = 0 ∧
        pureToneSample 1 1 4 1 (numSamples 4 1 - 1) = 0 ∧
        binauralSample 1 1 4 1 0 = 0 ∧
        binauralSample 1 1 4 1 (numSamples 4 1 - 1) = 0) :=
  ⟨⟨by norm_num, by norm_num⟩,
    fade_endpoints_zero 1 1 4 1 (by norm_num) (by norm_num)⟩

/-- Claim C10: for every sample produced by either generator with amplitude
`0 ≤ a ≤ 1` (and duration ≥ 1 s, the spec's validity precondition), the
scaled value `trunc(sample * 32767)` lies in `[-32767, 32767]`, so the
conversion to int16 in `save_wav` never wraps: `quantize` coincides with the
plain truncation. -/
theorem quantization_never_overflows (f d r a : ℚ) (i : ℕ)
    (ha0 : 0 ≤ a) (ha1 : a ≤ 1) (hr : 0 ≤ r) (hd : 1 ≤ d)
    (hi : i < numSamples r d) :
    (-32767 ≤ realTrunc (pureToneSample f d r a i * 32767) ∧
        realTrunc (pureToneSample f d r a i * 32767) ≤ 32767 ∧
        quantize (pureToneSample f d r a i) =
          realTrunc (pureToneSample f d r a i * 32767)) ∧
      (-32767 ≤ realTrunc (binauralSample f d r a i * 32767) ∧
        realTrunc (binauralSample f d r a i * 32767) ≤ 32767 ∧
        quantize (binauralSample f d r a i) =
          realTrunc (binauralSample f d r a i * 32767)) := by
  have ha1' : ((a : ℚ) : ℝ) ≤ 1 := by exact_mod_cast ha1
  have hpt : |pureToneSample f d r a i| ≤ 1 :=
    le_trans (abs_pureToneSample_le i ha0 hr hd hi) ha1'
  have hbn : |binauralSample f d r a i| ≤ 1 :=
    le_trans (abs_binauralSample_le i ha0 hr hd hi) ha1'
  obtain ⟨p1, p2⟩ := realTrunc_abs_le hpt
  obtain ⟨b1, b2⟩ := realTrunc_abs_le hbn
  refine ⟨⟨p1, p2, ?_⟩, ⟨b1, b2, ?_⟩⟩
  · unfold quantize
    rw [wrap16_eq_self p1 p2]
  · unfold quantize
    rw [wrap16_eq_self b1 b2]

theorem quantization_never_overflows_witness :
    ((0 : ℚ) ≤ 1 ∧ (1 : ℚ) ≤ 1 ∧ (0 : ℚ) ≤ 2 ∧ (1 : ℚ) ≤ 1 ∧ 0 < numSamples 2 1) ∧
      ((-32767 ≤ realTrunc (pureToneSample 1 1 2 1 0 * 32767) ∧
          realTrunc (pureToneSample 1 1 2 1 0 * 32767) ≤ 32767 ∧
          quantize (pureToneSample 1 1 2 1 0) =
            realTrunc (pureToneSample 1 1 2 1 0 * 32767)) ∧
        (-32767 ≤ realTrunc (binauralSample 1 1 2 1 0 * 32767) ∧
          realTrunc (binauralSample 1 1 2 1 0 * 32767) ≤ 32767 ∧
          quantize (binauralSample 1 1 2 1 0) =
            realTrunc (binauralSample 1 1 2 1 0 * 32767))) :=
  ⟨⟨by norm_num, by norm_num, by norm_num, by norm_num,
      by rw [numSamples_two_one]; decide⟩,
    quantization_never_overflows 1 1 2 1 0 (by norm_num) (by norm_num)
      (by norm_num) (by norm_num) (by rw [numSamples_two_one]; decide)⟩
